import Mathlib

/-!
Verification development for the layerstack repository (Smart-DS/layerstack).

The Python modules `layerstack/args.py` and `layerstack/stack.py` are shallowly
embedded below: Python values flowing through argument parsing become the
inductive `PyVal`; exceptions become constructors of `Err` (fallible code
returns `Except Err _` or a `_ × Option Err` state-and-error pair); the
process-wide side effects of `Stack.run` (the current working directory, the
outcomes of filesystem and user-supplied steps) become explicit state and
environment parameters.
-/

namespace LayerStack

mutual

/-- Python runtime values as they appear in layerstack argument handling:
`None`, booleans, integers, strings and (nested) lists. Lists are represented
by the companion type `PyList` so that equality stays decidable. -/
inductive PyVal where
  | none
  | bool (b : Bool)
  | int (n : Int)
  | str (s : String)
  | list (xs : PyList)
deriving Repr, DecidableEq

/-- Lists of `PyVal`s (a specialized `List` so that deriving works on the
mutual pair). -/
inductive PyList where
  | nil
  | cons (v : PyVal) (rest : PyList)
deriving Repr, DecidableEq

end

/-- Convert a `PyList` to an ordinary Lean list. -/
def PyList.toList : PyList → List PyVal
  | .nil => []
  | .cons v rest => v :: PyList.toList rest

/-- Build a `PyList` from an ordinary Lean list. -/
def PyList.ofList : List PyVal → PyList
  | [] => .nil
  | v :: rest => .cons v (PyList.ofList rest)

/-- Convenience constructor: the Python list holding `xs`. -/
def PyVal.listOf (xs : List PyVal) : PyVal := .list (PyList.ofList xs)

instance {ε α : Type} [DecidableEq ε] [DecidableEq α] : DecidableEq (Except ε α) := fun a b =>
  match a, b with
  | .ok x, .ok y =>
    if h : x = y then .isTrue (by rw [h]) else .isFalse (fun hh => h (Except.ok.inj hh))
  | .error x, .error y =>
    if h : x = y then .isTrue (by rw [h]) else .isFalse (fun hh => h (Except.error.inj hh))
  | .ok _, .error _ => .isFalse (fun hh => Except.noConfusion hh)
  | .error _, .ok _ => .isFalse (fun hh => Except.noConfusion hh)

/-- The exception kinds raised by the embedded code. `layerStackError`,
`layerStackTypeError` and `layerStackRuntimeError` model the package's own
exception classes (layerstack/__init__.py:39-56); `typeError`, `indexError`,
`attributeError` and `keyError` model the corresponding Python builtins;
`userError` stands for an arbitrary exception escaping a user-supplied
callable or an environment step. Messages are elided: no claim depends on
message text, only on which exception class escapes. -/
inductive Err where
  | typeError
  | layerStackError
  | layerStackTypeError
  | layerStackRuntimeError
  | indexError
  | attributeError
  | keyError
  | userError
deriving Repr, DecidableEq

/-- Python iteration (`for x in value`), as used by `_process_value`
(args.py:130,135): lists yield their elements, strings yield their characters
as one-character strings, everything else raises `TypeError`. -/
def pyIter : PyVal → Except Err (List PyVal)
  | .list xs => .ok xs.toList
  | .str s => .ok (s.data.map (fun c => .str (String.mk [c])))
  | _ => .error .typeError

/-- `True` exactly on the `PyVal`s that `pyIter` rejects. -/
def nonIterable : PyVal → Bool
  | .none | .bool _ | .int _ => true
  | _ => false

/-- The `nargs` attribute of a descriptor (args.py:74-83): `None`, `'?'`,
`'+'`, `'*'`, or an integer. -/
inductive Nargs where
  | noneN
  | opt
  | plus
  | star
  | num (n : Int)
deriving Repr, DecidableEq

/-- `KwArgBase.nargs` setter side effect `_is_list` (args.py:74-83): an
integer `nargs` always means a list; of the string forms only `'+'` and `'*'`
do. -/
def Nargs.isList : Nargs → Bool
  | .plus | .star | .num _ => true
  | _ => false

/-- The shared attributes of `Arg` and `Kwarg` descriptors
(args.py:35-68). `parser` and `listParser` are the user-supplied callables
(`parser` / `list_parser` in the source), which may raise. -/
structure KwArgBase where
  name : String := ""
  parser : Option (PyVal → Except Err PyVal) := Option.none
  choices : Option (List PyVal) := Option.none
  nargs : Nargs := .noneN
  listParser : Option (PyVal → Except Err PyVal) := Option.none

/-- `KwArgBase._process_value` (args.py:114-143). In the list branch, when
`parser` is set the raw value is iterated and each element parsed (the list
comprehension at args.py:130); when it is absent the raw value passes through
untouched. The `choices` check first tests whole-value membership, then
iterates and tests elementwise, raising `LayerStackRuntimeError` on a missing
element (args.py:133-137,141-142). -/
def processValue (d : KwArgBase) (value : PyVal) (noneAllowed : Bool) : Except Err PyVal := do
  if noneAllowed ∧ value = .none then
    return value
  if d.nargs.isList then
    let values₁ ← match d.parser with
      | some p => do
          let items ← pyIter value
          let parsed ← items.mapM p
          pure (PyVal.listOf parsed)
      | Option.none => pure value
    let values₂ ← match d.listParser with
      | some lp => lp values₁
      | Option.none => pure values₁
    match d.choices with
    | some cs =>
        if values₂ ∈ cs then
          pure values₂
        else do
          let items ← pyIter values₂
          if ∀ v ∈ items, v ∈ cs then
            pure values₂
          else
            throw Err.layerStackRuntimeError
    | Option.none => pure values₂
  else
    let v ← match d.parser with
      | some p => p value
      | Option.none => pure value
    match d.choices with
    | some cs =>
        if v ∈ cs then pure v else throw Err.layerStackRuntimeError
    | Option.none => pure v

/-- A positional argument descriptor together with its stored state
(args.py:169-244): `value?` is `some _` exactly when the Python object has a
`_value` attribute. -/
structure Arg where
  base : KwArgBase
  value? : Option PyVal := Option.none

/-- `Arg.set` (args.py:208-218): whether the value has been set. -/
def Arg.set (a : Arg) : Bool := a.value?.isSome

/-- The `Arg.value` setter (args.py:233-235 via `_set_value`,
args.py:108-112): `self._value = self._process_value(value)` computes the
parsed value first and assigns only on success; `_process_value` does not
mutate the descriptor, so a raised exception leaves the state exactly as it
was. The pair returned is (state after the call, escaped exception if any). -/
def Arg.trySet (a : Arg) (v : PyVal) : Arg × Option Err :=
  match processValue a.base v false with
  | .ok pv => ({a with value? := some pv}, Option.none)
  | .error e => (a, some e)

/-- A keyword argument descriptor together with its stored state
(args.py:247-355): `default` is the (already parsed) default, `value?` is
`some _` exactly when a `_value` attribute exists. -/
structure Kwarg where
  base : KwArgBase
  default : PyVal := .none
  value? : Option PyVal := Option.none

/-- `Kwarg.defaulted` (args.py:291-301): true when no explicit value is
stored. -/
def Kwarg.defaulted (k : Kwarg) : Bool := k.value?.isNone

/-- The `Kwarg.value` getter (args.py:303-315): the explicit value if one was
set, else the default. -/
def Kwarg.value (k : Kwarg) : PyVal := k.value?.getD k.default

/-- The `Kwarg.value` setter (args.py:317-325): assigning `None` deletes any
stored `_value` (reverting to the default) and never raises; any other value
goes through `_set_value` just as for `Arg`. -/
def Kwarg.trySet (k : Kwarg) (v : PyVal) : Kwarg × Option Err :=
  if v = .none then
    ({k with value? := Option.none}, Option.none)
  else
    match processValue k.base v false with
    | .ok pv => ({k with value? := some pv}, Option.none)
    | .error e => (k, some e)

/-- `ArgMode` (args.py:358-367): whether an argument container is being
DESCribed or USEd. -/
inductive ArgMode where
  | DESC
  | USE
deriving Repr, DecidableEq

/-- `ArgList` (args.py:370-557): a list of `Arg`s together with the current
container mode. -/
structure ArgList where
  mode : ArgMode
  items : List Arg

/-- The `ArgList.mode` setter (args.py:403-408): it stores the new mode and
touches nothing else. -/
def ArgList.setMode (al : ArgList) (m : ArgMode) : ArgList := {al with mode := m}

/-- What a container read yields: the descriptor object itself in DESC mode,
the plain value in USE mode. -/
inductive ItemView where
  | descView (a : Arg)
  | useView (v : PyVal)

/-- `ArgList.__getitem__` (args.py:410-422): out-of-range raises `IndexError`;
DESC mode returns the `Arg` object; USE mode returns `Arg.value`, whose getter
raises `AttributeError` when no value has been set. -/
def ArgList.getItem (al : ArgList) (i : Nat) : Except Err ItemView :=
  match al.items.get? i with
  | Option.none => .error .indexError
  | some a =>
    match al.mode with
    | .DESC => .ok (.descView a)
    | .USE =>
      match a.value? with
      | some v => .ok (.useView v)
      | Option.none => .error .attributeError

/-- `ArgList.__setitem__` (args.py:435-464) applied to a raw (non-`Arg`)
value: in DESC mode that raises `LayerStackTypeError` ("ArgLists only hold
Args"); in USE mode the value is assigned to the `Arg` already at position
`i` through its `value` setter. -/
def ArgList.setValue (al : ArgList) (i : Nat) (v : PyVal) : Except Err ArgList :=
  match al.mode with
  | .DESC => .error .layerStackTypeError
  | .USE =>
    match al.items.get? i with
    | Option.none => .error .indexError
    | some a =>
      match (a.trySet v).2 with
      | some e => .error e
      | Option.none => .ok {al with items := al.items.set i (a.trySet v).1}

/-- `KwargDict` (args.py:560-709): an ordered association of names to `Kwarg`s
together with the current container mode. -/
structure KwargDict where
  mode : ArgMode
  items : List (String × Kwarg)

/-- The `KwargDict.mode` setter (args.py:594-599): it stores the new mode and
touches nothing else. -/
def KwargDict.setMode (kd : KwargDict) (m : ArgMode) : KwargDict := {kd with mode := m}

/-- Dictionary lookup on the first (and, for a well-formed dict, only)
binding of a key. -/
def assocFind : List (String × Kwarg) → String → Option Kwarg
  | [], _ => Option.none
  | (k, v) :: rest, key => if k = key then some v else assocFind rest key

/-- Dictionary update in place: replace the first binding of `key`,
preserving insertion order (`OrderedDict` semantics). -/
def assocSet : List (String × Kwarg) → String → Kwarg → List (String × Kwarg)
  | [], _, _ => []
  | (k, v) :: rest, key, nv =>
    if k = key then (k, nv) :: rest else (k, v) :: assocSet rest key nv

/-- What a `KwargDict` read yields, by mode. -/
inductive KwView where
  | descK (k : Kwarg)
  | useK (v : PyVal)

/-- `KwargDict.__getitem__` (args.py:601-617): a missing key raises
`KeyError`; DESC mode returns the `Kwarg` object; USE mode returns
`Kwarg.value` (total: it falls back to the default). -/
def KwargDict.getItem (kd : KwargDict) (key : String) : Except Err KwView :=
  match assocFind kd.items key with
  | Option.none => .error .keyError
  | some k =>
    match kd.mode with
    | .DESC => .ok (.descK k)
    | .USE => .ok (.useK k.value)

/-- The default `Kwarg()` created by `KwargDict.__setitem__` for a missing
key (args.py:702-707). -/
def mkPlainKwarg (key : String) : Kwarg := { base := { name := key } }

/-- `KwargDict.__setitem__` (args.py:674-709) applied to a raw (non-`Kwarg`)
value: in DESC mode that raises `LayerStackTypeError` ("KwargDicts only hold
Kwargs"); in USE mode a missing key is first populated with a default
`Kwarg()` (with a warning), then the value is assigned through the `Kwarg`'s
`value` setter. -/
def KwargDict.setValue (kd : KwargDict) (key : String) (v : PyVal) : Except Err KwargDict :=
  match kd.mode with
  | .DESC => .error .layerStackTypeError
  | .USE =>
    let items₁ :=
      match assocFind kd.items key with
      | some _ => kd.items
      | Option.none => kd.items ++ [(key, mkPlainKwarg key)]
    match assocFind items₁ key with
    | Option.none => .error .keyError
    | some k =>
      match (k.trySet v).2 with
      | some e => .error e
      | Option.none => .ok {kd with items := assocSet items₁ key (k.trySet v).1}

/-! ## The Stack model (layerstack/stack.py) -/

/-- The slice of a `layerstack.layer.Layer` that `Stack`'s sequence
operations and `run` observe: its name and whether all of its positional
arguments are set (`Layer.runnable`, layer.py:742-752, which returns
`self._args.set`). -/
structure Layer where
  name : String := ""
  argsSet : Bool := false

/-- `Layer.runnable` (layer.py:742-752). -/
def Layer.runnable (l : Layer) : Bool := l.argsSet

/-- A candidate element for a `Stack`'s sequence: a genuine `Layer` instance,
or one of the non-`Layer` things a caller might mistakenly pass (a bare
directory path, a raw layer definition, an arbitrary primitive value). -/
inductive StackElem where
  | layerElem (l : Layer)
  | dirPath (p : String)
  | rawDef (s : String)
  | prim (v : PyVal)

/-- `Stack.__checkLayer` (stack.py:113-125): anything that is not a `Layer`
instance raises `LayerStackError`. -/
def checkLayer : StackElem → Option Err
  | .layerElem _ => Option.none
  | _ => some .layerStackError

/-- Extract the `Layer` from a checked element. -/
def StackElem.toLayer : StackElem → Option Layer
  | .layerElem l => some l
  | _ => Option.none

/-- The state of a `Stack` (stack.py:55-111): name, run directory and layer
sequence. Paths are modelled as lists of path components. -/
structure Stack where
  name : Option String := Option.none
  runDir : Option (List String) := Option.none
  layers : List Layer := []

/-- `Stack.__init__` (stack.py:68-111): each element of `layers` is checked
with `__checkLayer` (the first offender raises) before the internal list is
extended. -/
def Stack.mkStack (elems : List StackElem) (runDir : Option (List String)) : Except Err Stack :=
  match elems.findSome? checkLayer with
  | some err => .error err
  | Option.none => .ok { runDir := runDir, layers := elems.filterMap StackElem.toLayer }

/-- Python's `list.insert`: clamps the index (an index past the end
appends). -/
def pyInsert (l : List Layer) (i : Nat) (a : Layer) : List Layer :=
  l.take i ++ [a] ++ l.drop i

/-- `Stack.append` (stack.py:182-193): check the element, then append. On
failure the exception propagates and the layer sequence is untouched. -/
def Stack.append (st : Stack) (e : StackElem) : Stack × Option Err :=
  match e with
  | .layerElem l => ({st with layers := st.layers ++ [l]}, Option.none)
  | other => (st, checkLayer other)

/-- `Stack.insert` (stack.py:168-180): check the element, then insert at
position `i`. -/
def Stack.insert (st : Stack) (i : Nat) (e : StackElem) : Stack × Option Err :=
  match e with
  | .layerElem l => ({st with layers := pyInsert st.layers i l}, Option.none)
  | other => (st, checkLayer other)

/-- `Stack.__setitem__` (stack.py:143-155): check the element, then — a
quirk of the source — `insert` it at position `i` rather than replace. -/
def Stack.setItem (st : Stack) (i : Nat) (e : StackElem) : Stack × Option Err :=
  match e with
  | .layerElem l => ({st with layers := pyInsert st.layers i l}, Option.none)
  | other => (st, checkLayer other)

/-- `Stack.runnable` (stack.py:317-335): false when `run_dir` is unset,
otherwise true iff every layer is runnable (vacuously true for an empty
stack). -/
def Stack.runnable (st : Stack) : Bool :=
  match st.runDir with
  | Option.none => false
  | some _ => st.layers.all Layer.runnable

/-- `pathlib.Path.name`: the final component of a path. -/
def pathName (p : List String) : String := p.getLastD ""

/-- `Stack.get_layer_dir` (stack.py:450-487), verbatim from the body at
stack.py:481-487: walk `layer_library_dirs` in order; the first library
directory that exists on disk (existence supplied by the oracle `ex`) wins
and the returned path is that directory joined with the original layer
directory's base name; a non-existent library directory is skipped with a
printed notice; when the list is exhausted the function falls off the end
and returns `None`. The `originalPreferred` flag is accepted — as in the
source — but never consulted, and the original `layerDir` itself is never
probed. -/
def get_layer_dir (ex : List String → Bool) (layerDir : List String) :
    List (List String) → Bool → Option (List String)
  | [], _ => Option.none
  | l :: rest, originalPreferred =>
    if ex l then some (l ++ [pathName layerDir])
    else get_layer_dir ex layerDir rest originalPreferred

/-- The environment a single `Stack.run` call executes against: the `archive`
flag, and the outcomes (`Option.none` = success, `some e` = that exception)
of the individual effectful steps — `start_file_log` (stack.py:673), the
archive write (stack.py:676), the model-load prologue (stack.py:681-689),
each layer's `run_layer` call (stack.py:691-698) and the final model save
(stack.py:700-707). -/
structure RunEnv where
  archive : Bool := true
  startFileLogErr : Option Err := Option.none
  archiveErr : Option Err := Option.none
  modelErr : Option Err := Option.none
  layerErrs : List (Option Err) := []
  saveErr : Option Err := Option.none

/-- The layer loop at stack.py:691-698: layers run in order; the first
exception escapes. -/
def runLayersOutcome : List (Option Err) → Option Err
  | [] => Option.none
  | Option.none :: rest => runLayersOutcome rest
  | some e :: _ => some e

/-- The body of the `try:` block at stack.py:680-707: the model-load
prologue, then the layer loop, then the final save. -/
def tryBody (env : RunEnv) : Option Err :=
  match env.modelErr with
  | some e => some e
  | Option.none =>
    match runLayersOutcome env.layerErrs with
    | some e => some e
    | Option.none => env.saveErr

/-- `Stack.run` (stack.py:613-715) as a transition on the process's current
working directory. Control flow, in source order:
`self.layers[-1]` (stack.py:648, `IndexError` on an empty stack); the
`runnable` precondition (stack.py:652-653, `LayerStackError`);
`os.chdir(self.run_dir)` (stack.py:669-670); `start_file_log` and the
optional `self.archive()` (stack.py:673-676), which run AFTER the directory
change but BEFORE the `try:` block, so their exceptions escape without the
directory being restored; then the `try:` body, whose `except:` arm and
success path both `os.chdir(old_cur_dir)` (stack.py:710,713) before
returning or re-raising. Returns (working directory afterward, escaped
exception if any). -/
def Stack.run (st : Stack) (env : RunEnv) (cwd : List String) : List String × Option Err :=
  if st.layers.isEmpty then (cwd, some .indexError)
  else if ¬ st.runnable then (cwd, some .layerStackError)
  else
    let oldCurDir := cwd
    let newCwd := st.runDir.getD []
    match env.startFileLogErr with
    | some e => (newCwd, some e)
    | Option.none =>
      match (if env.archive then env.archiveErr else Option.none) with
      | some e => (newCwd, some e)
      | Option.none =>
        match tryBody env with
        | some e => (oldCurDir, some e)
        | Option.none => (oldCurDir, Option.none)

/-! ## Stack.load argument reconciliation (stack.py:548-592)

The reconciliation matches each serialized positional argument (identified by
its index and name) to a live descriptor index. `pass1` is the first loop
(stack.py:558-571): exact index+name match first, then name-only match
against the dict `actual_args` (name → index, built by forward insertion so a
duplicated name keeps its *last* index). `pass2` is the fallback loop over
the still-unassigned serialized indices (stack.py:572-583): same-index
positional alignment when that live slot is still unclaimed, else the
argument is dropped. The result maps each serialized index to the live index
whose descriptor receives its value (stack.py:585-592), or to `Option.none`
when the value is never applied. -/

/-- Index of the last occurrence of `x` (the binding `actual_args[name]`
ends up with after the building loop at stack.py:550-552). -/
def lastIdxOf : List String → String → Option Nat
  | [], _ => Option.none
  | y :: rest, x =>
    match lastIdxOf rest x with
    | some j => some (j + 1)
    | Option.none => if y = x then some 0 else Option.none

/-- One iteration of the first reconciliation loop (stack.py:559-571) for
the serialized argument named `x` at serialized index `i`: exact index+name
match first (requires the live slot `i` to hold name `x` and be unclaimed),
then name-only match against `actual_args` (`lastIdxOf`), else unassigned.
Returns the match and the updated claimed set. -/
def pass1Step (live : List String) (x : String) (i : Nat) (assigned : List Nat) :
    Option Nat × List Nat :=
  if live.get? i = some x ∧ i ∉ assigned then (some i, assigned ++ [i])
  else
    match lastIdxOf live x with
    | some j => if j ∉ assigned then (some j, assigned ++ [j]) else (Option.none, assigned)
    | Option.none => (Option.none, assigned)

/-- First reconciliation loop (stack.py:558-571). Arguments: live descriptor
names, remaining serialized names, index of the first of them, live indices
already claimed. Returns the per-serialized-index match (`Option.none` =
still unassigned) and the final claimed set. -/
def pass1 (live : List String) : List String → Nat → List Nat → List (Option Nat) × List Nat
  | [], _, assigned => ([], assigned)
  | x :: rest, i, assigned =>
    let step := pass1Step live x i assigned
    let rest₂ := pass1 live rest (i + 1) step.2
    (step.1 :: rest₂.1, rest₂.2)

/-- Second reconciliation loop (stack.py:572-583) over the unassigned
serialized indices: returns those granted same-index positional fallback. -/
def pass2 (nlive : Nat) : List Nat → List Nat → List Nat
  | [], _ => []
  | i :: rest, assigned =>
    if i < nlive ∧ i ∉ assigned then i :: pass2 nlive rest (assigned ++ [i])
    else pass2 nlive rest assigned

/-- The indices whose first-pass entry is `Option.none` (`unassigned_sargs`,
stack.py:556,570-571), in increasing order starting at `k`. -/
def deferredIdxs : List (Option Nat) → Nat → List Nat
  | [], _ => []
  | Option.none :: rest, i => i :: deferredIdxs rest (i + 1)
  | some _ :: rest, i => deferredIdxs rest (i + 1)

/-- Merge the second-pass grants back into the map (the overwrites
`serialized_to_actual_map[i] = i` at stack.py:575). -/
def finalize : List (Option Nat) → Nat → List Nat → List (Option Nat)
  | [], _, _ => []
  | some j :: rest, i, granted => some j :: finalize rest (i + 1) granted
  | Option.none :: rest, i, granted =>
    (if i ∈ granted then some i else Option.none) :: finalize rest (i + 1) granted

/-- The whole serialized-index → live-index reconciliation of `Stack.load`
(stack.py:548-583). -/
def reconcileArgs (live s : List String) : List (Option Nat) :=
  let p1 := pass1 live s 0 []
  let granted := pass2 live.length (deferredIdxs p1.1 0) p1.2
  finalize p1.1 0 granted

/-- The (serialized index, live index) pairs at which the value-application
loop (stack.py:585-592) actually assigns a value, walking the map from
serialized index `k` upward: exactly the non-`None` entries, thanks to the
`if j is not None` guard. A serialized index mapped to `Option.none` appears
in no pair — its value is never applied. -/
def performedAssignments : List (Option Nat) → Nat → List (Nat × Nat)
  | [], _ => []
  | some j :: rest, i => (i, j) :: performedAssignments rest (i + 1)
  | Option.none :: rest, i => performedAssignments rest (i + 1)

/-! ## get_short_name (args.py:788-840)

The short-name search: split the full name on `'_'` and `'-'`, then for
growing per-part prefix length `M` try, for each `n = 1..N`, the candidate
formed by the first `M` characters of parts `0..n-1` followed by the first
`M-1` characters of parts `n..N-1`; the first candidate not already among
`short_names` wins. Candidates seen and rejected accumulate in a set; when a
whole round of `n` values adds nothing new to that set the function raises
`LayerStackRuntimeError`. The outer `while` has no intrinsic bound, so the
embedding takes a fuel parameter; `fuelOut` stands for non-termination within
the allotted fuel and occurs in none of the proved facts. -/

/-- `multisplit` (args.py:791-801): sequentially splitting on `'_'` and then
`'-'` equals one pass splitting on either separator; empty pieces are kept,
exactly as `str.split(sep)` keeps them. `acc` holds the current piece in
reverse. -/
def multisplitAux (seps : List Char) : List Char → List Char → List String
  | [], acc => [String.mk acc.reverse]
  | c :: rest, acc =>
    if c ∈ seps then String.mk acc.reverse :: multisplitAux seps rest []
    else multisplitAux seps rest (c :: acc)

/-- Split a name on the default separators `'_'` and `'-'` (args.py:788). -/
def multisplit (name : String) : List String :=
  multisplitAux ['_', '-'] name.data []

/-- Python `s[:n]`. -/
def strTake (s : String) (n : Nat) : String := String.mk (s.data.take n)

/-- Concatenation of a list of strings. -/
def strCat (xs : List String) : String := xs.foldl (· ++ ·) ""

/-- The candidate built for a given `M` and `n` (args.py:822-830): `M`
characters from each of the first `n` parts, `M - 1` from the rest (each
clamped to the part's length, which `take` already does). -/
def candidateFor (parts : List String) (M n : Nat) : String :=
  strCat ((parts.take n).map (fun p => strTake p M)) ++
    strCat ((parts.drop n).map (fun p => strTake p (M - 1)))

/-- Python set insertion (`candidates.add`): sets are modelled as
duplicate-free lists, which preserves the only observation made of the set —
its cardinality. -/
def addCandidate (cands : List String) (c : String) : List String :=
  if c ∈ cands then cands else cands ++ [c]

/-- The inner `while n <= N` loop (args.py:821-835) over the remaining `n`
values: the first candidate not in `shortNames` is returned; rejected
candidates are added to the set. -/
def tryNs (parts shortNames : List String) (M : Nat) :
    List Nat → List String → Option String × List String
  | [], cands => (Option.none, cands)
  | n :: rest, cands =>
    let c := candidateFor parts M n
    if c ∈ shortNames then tryNs parts shortNames M rest (addCandidate cands c)
    else (some c, cands)

/-- Result of one `get_short_name` call. -/
inductive ShortNameResult where
  | found (s : String)
  | collisionError
  | fuelOut
deriving Repr, DecidableEq

/-- The outer `while not short_name` loop (args.py:808-836). `k` is the
candidate-set size recorded at the start of the previous round (0 before the
first); the stagnation check at args.py:809-818 fires when `k` is nonzero
and the set did not grow. A found candidate only stops the loop if it is
truthy, i.e. a nonempty string. -/
def shortNameLoop (parts shortNames : List String) :
    Nat → Nat → Nat → List String → ShortNameResult
  | 0, _, _, _ => .fuelOut
  | fuel + 1, M, k, cands =>
    if k ≠ 0 ∧ cands.length = k then .collisionError
    else
      match tryNs parts shortNames M ((List.range parts.length).map (· + 1)) cands with
      | (some c, cands₂) =>
        if c = "" then shortNameLoop parts shortNames fuel (M + 1) cands.length cands₂
        else .found c
      | (Option.none, cands₂) => shortNameLoop parts shortNames fuel (M + 1) cands.length cands₂

/-- `get_short_name(name, short_names)` (args.py:788-840), up to fuel. -/
def get_short_name (fuel : Nat) (name : String) (shortNames : List String) : ShortNameResult :=
  shortNameLoop (multisplit name) shortNames fuel 1 0 []

/-- Sequential derivation (the usage pattern of `KwargDict.add_arguments`,
args.py:735-736, and of the `test_get_short_name` test): each found short
name is appended to the used-set before the next full name is processed.
Returns the derived short names, or `Option.none` if any single derivation
fails or runs out of fuel. -/
def getShortNamesSeq (fuel : Nat) : List String → List String → Option (List String)
  | [], _ => some []
  | n :: rest, used =>
    match get_short_name fuel n used with
    | .found c => (getShortNamesSeq fuel rest (used ++ [c])).map (fun out => c :: out)
    | _ => Option.none

/-! ## Helper lemmas about `processValue` -/

/-- A scalar-arity descriptor with no parser and no choices stores the
assigned value unchanged. -/
theorem processValue_plain (d : KwArgBase) (v : PyVal) (h1 : d.nargs.isList = false)
    (h2 : d.parser = Option.none) (h3 : d.choices = Option.none) :
    processValue d v false = .ok v := by
  simp [processValue, h1, h2, h3]
  rfl

/-- A list-arity descriptor with no parser, no list parser and no choices
also stores the assigned value unchanged — even a scalar. -/
theorem processValue_plainList (d : KwArgBase) (v : PyVal) (h1 : d.nargs.isList = true)
    (h2 : d.parser = Option.none) (h3 : d.listParser = Option.none)
    (h4 : d.choices = Option.none) :
    processValue d v false = .ok v := by
  simp [processValue, h1, h2, h3, h4]
  rfl

/-- A list-arity descriptor with a parser iterates the raw value, so a
non-iterable scalar raises `TypeError` before the parser is even called. -/
theorem processValue_listArg_scalar (d : KwArgBase) (v : PyVal)
    (p : PyVal → Except Err PyVal) (h1 : d.nargs.isList = true)
    (h2 : d.parser = some p) (hv : nonIterable v = true) :
    processValue d v false = .error .typeError := by
  cases v <;>
    simp_all [processValue, pyIter, nonIterable, Bind.bind, Except.bind, Pure.pure, Except.pure]

/-! ## Claim theorems -/

/-- The filesystem oracle for the C1 scenario: the originally-serialized
layer directory `home/layers/mylayer` exists, and the library directory
`lib` exists and contains a same-named layer `lib/mylayer`. -/
def c1Exists : List String → Bool := fun p =>
  p = ["home", "layers", "mylayer"] || p = ["lib"] || p = ["lib", "mylayer"]

/-- C1. The claim says `get_layer_dir(original, [library],
original_preferred=True)` returns the original path when it exists, and that
when neither location exists a hard-fail mode raises. The code
(stack.py:481-487) never consults `original_preferred` and never probes the
original path: with the original existing and the library containing a
same-named copy, it returns the library path for BOTH flag values — which
contradicts the function's own docstring (stack.py:467-478, "If True and the
original layer_dir path exists, it will be used directly") and the module
TODO "Implement get_layer_dir" (stack.py:48). With no existing library
directory it returns `None` regardless of any hard-fail intent; no raising
path exists. This theorem evaluates the code at the failing input. -/
theorem get_layer_dir_ignores_original_preference :
    get_layer_dir c1Exists ["home", "layers", "mylayer"] [["lib"]] true
      = some ["lib", "mylayer"] ∧
    get_layer_dir c1Exists ["home", "layers", "mylayer"] [["lib"]] false
      = some ["lib", "mylayer"] ∧
    some ["lib", "mylayer"] ≠ some ["home", "layers", "mylayer"] ∧
    c1Exists ["home", "layers", "mylayer"] = true ∧
    get_layer_dir (fun _ => false) ["home", "layers", "mylayer"] [["lib"]] true
      = Option.none := by
  refine ⟨rfl, rfl, by decide, rfl, rfl⟩

/-- The stack and environment of the C2 counterexample: one runnable layer,
archiving enabled, and the `self.archive()` call at stack.py:676 raising. -/
def c2Stack : Stack :=
  { runDir := some ["run"], layers := [{ name := "L", argsSet := true }] }

/-- See `run_archive_failure_leaves_cwd`. -/
def c2Env : RunEnv := { archive := true, archiveErr := some .userError, layerErrs := [Option.none] }

/-- C2 counterexample. The claim says the working directory is restored on
EVERY exit path of `Stack.run`, including an exception from the archive
step. But `self.archive()` (stack.py:676) runs after `os.chdir(self.run_dir)`
(stack.py:670) and before the `try:` block (stack.py:680), so when it raises,
the process is left in `run_dir`, not the prior directory. -/
theorem run_archive_failure_leaves_cwd :
    (Stack.run c2Stack c2Env ["home"]).2 = some .userError ∧
    (Stack.run c2Stack c2Env ["home"]).1 = ["run"] ∧
    (["run"] : List String) ≠ ["home"] := by
  refine ⟨rfl, rfl, by decide⟩

/-- C2 amended: once `Stack.run` reaches the `try:` block — that is, when
`start_file_log` succeeds and the archive step (if enabled) succeeds — the
working directory afterward equals the directory from immediately before the
call on every exit path, and any exception raised inside the block (a layer
entry point, the model-load prologue, the final save) propagates to the
caller unchanged. -/
theorem run_restores_cwd_on_body_failure :
    ∀ (st : Stack) (env : RunEnv) (cwd : List String),
      env.startFileLogErr = Option.none →
      (env.archive = true → env.archiveErr = Option.none) →
      (Stack.run st env cwd).1 = cwd ∧
      (st.layers.isEmpty = false → st.runnable = true →
        (Stack.run st env cwd).2 = tryBody env) := by
  intro st env cwd hlog harch
  by_cases h1 : st.layers.isEmpty
  · simp [Stack.run, h1]
  · by_cases h2 : st.runnable
    · have harchEff : (if env.archive then env.archiveErr else Option.none) = Option.none := by
        cases ha : env.archive
        · rfl
        · simpa using harch ha
      constructor
      · cases htb : tryBody env <;> simp [Stack.run, h1, h2, hlog, harchEff, htb]
      · intro _ _
        cases htb : tryBody env <;> simp [Stack.run, h1, h2, hlog, harchEff, htb]
    · constructor
      · simp [Stack.run, h1, h2]
      · intro _ hr
        exact absurd hr (by simpa using h2)

/-- The witness environment: a layer entry point raising inside the `try:`
block. -/
def c2wEnv : RunEnv := { layerErrs := [some .userError] }

/-- Witness for `run_restores_cwd_on_body_failure` at a concrete runnable
stack whose single layer raises: the directory is restored and the layer's
exception propagates. -/
theorem run_restores_cwd_on_body_failure_witness :
    (Stack.run c2Stack c2wEnv ["home"]).1 = ["home"] ∧
    (Stack.run c2Stack c2wEnv ["home"]).2 = some .userError := by
  refine ⟨(run_restores_cwd_on_body_failure c2Stack c2wEnv ["home"] rfl (fun _ => rfl)).1, ?_⟩
  rw [(run_restores_cwd_on_body_failure c2Stack c2wEnv ["home"] rfl (fun _ => rfl)).2 rfl rfl]
  rfl

/-- C10. Calling `Stack.run` on an empty stack always fails at
`self.layers[-1]` (stack.py:648) with `IndexError`, before the `runnable`
precondition check (stack.py:652) is ever reached — even though an empty
stack with `run_dir` set is vacuously runnable (stack.py:317-335) — so the
not-runnable `LayerStackError` is never the failure reported. -/
theorem run_empty_stack_index_error :
    ∀ (env : RunEnv) (cwd rd : List String),
      (Stack.run { runDir := some rd, layers := [] } env cwd).2 = some .indexError ∧
      Stack.runnable { runDir := some rd, layers := [] } = true ∧
      some Err.indexError ≠ some Err.layerStackError := by
  intro env cwd rd
  exact ⟨rfl, rfl, by decide⟩

/-- C5. Appending, inserting, `__setitem__`-assigning, or constructing a
`Stack` with any element that is not a `Layer` instance fails with the
`LayerStackError` raised by `Stack.__checkLayer` (stack.py:113-125), for
every non-`Layer` input — directory paths, raw layer definitions, primitive
values — and the layer sequence is unchanged by the failed operation (the
check precedes every mutation). -/
theorem stack_rejects_non_layers :
    ∀ (st : Stack) (e : StackElem) (i : Nat) (rd : Option (List String)),
      (∀ l, e ≠ .layerElem l) →
      st.append e = (st, some .layerStackError) ∧
      st.insert i e = (st, some .layerStackError) ∧
      st.setItem i e = (st, some .layerStackError) ∧
      Stack.mkStack [e] rd = .error .layerStackError := by
  intro st e i rd h
  cases e with
  | layerElem l => exact absurd rfl (h l)
  | dirPath p => exact ⟨rfl, rfl, rfl, rfl⟩
  | rawDef s => exact ⟨rfl, rfl, rfl, rfl⟩
  | prim v => exact ⟨rfl, rfl, rfl, rfl⟩

/-- Witness for `stack_rejects_non_layers`: a bare directory path and a
primitive value are both rejected, leaving the (empty) stack unchanged. -/
theorem stack_rejects_non_layers_witness :
    Stack.append { } (.dirPath "layer_library/my_layer")
      = ({ }, some .layerStackError) ∧
    Stack.mkStack [.prim (.int 3)] Option.none = .error .layerStackError :=
  ⟨(stack_rejects_non_layers { } (.dirPath "layer_library/my_layer") 0 Option.none
      (fun _ h => StackElem.noConfusion h)).1,
   (stack_rejects_non_layers { } (.prim (.int 3)) 0 Option.none
      (fun _ h => StackElem.noConfusion h)).2.2.2⟩

/-- C7. For every `Kwarg`: assigning `None` reverts `value` to `default` and
never raises; assigning `None` when already defaulted is a no-op; a
successful non-`None` assignment makes `defaulted` false; and `defaulted` is
true exactly when no explicit value is stored (args.py:291-325). -/
theorem kwarg_none_reverts_to_default :
    ∀ (k : Kwarg) (v : PyVal) (k₂ : Kwarg),
      ((k.trySet .none).2 = Option.none ∧
        (k.trySet .none).1.value = k.default ∧
        (k.trySet .none).1.defaulted = true) ∧
      (k.defaulted = true → k.trySet .none = (k, Option.none)) ∧
      (v ≠ .none → k.trySet v = (k₂, Option.none) → k₂.defaulted = false) ∧
      (k.defaulted = true ↔ k.value? = Option.none) := by
  intro k v k₂
  refine ⟨⟨rfl, rfl, rfl⟩, ?_, ?_, ?_⟩
  · intro h
    cases k with
    | mk base default value? =>
      simp only [Kwarg.defaulted, Option.isNone_iff_eq_none] at h
      simp [Kwarg.trySet, h]
  · intro hv h
    rw [Kwarg.trySet, if_neg hv] at h
    cases hp : processValue k.base v false with
    | ok pv =>
      rw [hp] at h
      cases h
      rfl
    | error e =>
      rw [hp] at h
      cases h
  · simp [Kwarg.defaulted, Option.isNone_iff_eq_none]

/-- The `change_rate`-style kwarg used by the C7 witness. -/
def c7Kwarg : Kwarg := { base := { name := "change_rate" }, default := .int 7 }

/-- Witness for `kwarg_none_reverts_to_default` at a concrete kwarg: after
setting 3, `defaulted` is false; assigning `None` reverts to the default 7;
and a defaulted kwarg is untouched by a `None` assignment. -/
theorem kwarg_none_reverts_to_default_witness :
    ((c7Kwarg.trySet (.int 3)).1.defaulted = false) ∧
    (((c7Kwarg.trySet (.int 3)).1.trySet .none).1.value = .int 7) ∧
    (c7Kwarg.trySet .none = (c7Kwarg, Option.none)) :=
  ⟨(kwarg_none_reverts_to_default c7Kwarg (.int 3)
      { c7Kwarg with value? := some (.int 3) }).2.2.1 (by decide) rfl,
   (kwarg_none_reverts_to_default ((c7Kwarg.trySet (.int 3)).1) (.int 3)
      { c7Kwarg with value? := some (.int 3) }).1.2.1,
   (kwarg_none_reverts_to_default c7Kwarg (.int 3)
      { c7Kwarg with value? := some (.int 3) }).2.1 rfl⟩

/-- C9. Value assignment to an `Arg` or `Kwarg` is atomic: whenever parsing
or validation raises (parser failure, list-parser failure, choices
violation — any escaping exception), the stored value and the `set`
(`Arg`) / `defaulted` (`Kwarg`) flags are exactly as they were before the
assignment. In the source, `self._value = self._process_value(value)`
(args.py:108-112) evaluates the right-hand side, which never mutates the
descriptor, before assigning. -/
theorem descriptor_assignment_atomic :
    ∀ (a : Arg) (k : Kwarg) (v : PyVal) (e e₂ : Err),
      ((a.trySet v).2 = some e → (a.trySet v).1 = a ∧ (a.trySet v).1.set = a.set) ∧
      ((k.trySet v).2 = some e₂ →
        (k.trySet v).1 = k ∧ (k.trySet v).1.defaulted = k.defaulted) := by
  intro a k v e e₂
  constructor
  · intro h
    rw [Arg.trySet] at h ⊢
    cases hp : processValue a.base v false with
    | ok pv => rw [hp] at h; cases h
    | error e₃ => exact ⟨rfl, rfl⟩
  · intro h
    rw [Kwarg.trySet] at h ⊢
    by_cases hv : v = PyVal.none
    · rw [if_pos hv] at h; cases h
    · rw [if_neg hv] at h ⊢
      cases hp : processValue k.base v false with
      | ok pv => rw [hp] at h; cases h
      | error e₃ => exact ⟨rfl, rfl⟩

/-- The descriptor for the C9 witness: a choices-restricted argument. -/
def c9Arg : Arg := { base := { name := "pv_penetration", choices := some [.int 1] } }

/-- Witness for `descriptor_assignment_atomic`: assigning 2 to an argument
whose only allowed choice is 1 raises `LayerStackRuntimeError` and leaves
the argument unset. -/
theorem descriptor_assignment_atomic_witness :
    (c9Arg.trySet (.int 2)).2 = some .layerStackRuntimeError ∧
    (c9Arg.trySet (.int 2)).1 = c9Arg :=
  ⟨rfl,
   ((descriptor_assignment_atomic c9Arg { base := { } } (.int 2)
      .layerStackRuntimeError .layerStackRuntimeError).1 rfl).1⟩

/-- The parserless list argument of the C3 counterexample, mirroring
`Arg('list_arg', nargs='+')` without a parser. -/
def c3ListArg : Arg := { base := { name := "list_arg", nargs := .plus } }

/-- C3 counterexample. The claim says assigning a scalar to ANY descriptor
with `is_list` true fails with a type or validation error. But
`_process_value` (args.py:125-138) only iterates the raw value when a
`parser` is configured; with `parser`, `list_parser` and `choices` all
absent, the scalar `5` is stored unchanged in a `nargs='+'` argument and no
exception is raised. -/
theorem scalar_accepted_by_parserless_list_arg :
    (c3ListArg.trySet (.int 5)).2 = Option.none ∧
    (c3ListArg.trySet (.int 5)).1.value? = some (.int 5) :=
  ⟨rfl, rfl⟩

/-- C3 amended: for a descriptor with `is_list` true AND a parser
configured, assigning a non-iterable scalar fails with `TypeError` (raised
while iterating the scalar); with no parser, list parser or choices the
value setter stores the assigned value unchanged, so a scalar is accepted as
is. For a descriptor with `is_list` false and no parser or choices, the
stored value is the assigned value itself — in particular it is a list
exactly when a list was assigned; with a parser it is whatever the parser
returns. -/
theorem list_arity_value_assignment :
    ∀ (d : KwArgBase) (v : PyVal) (p : PyVal → Except Err PyVal),
      (d.nargs.isList = true → d.parser = some p → nonIterable v = true →
        processValue d v false = .error .typeError) ∧
      (d.nargs.isList = true → d.parser = Option.none → d.listParser = Option.none →
        d.choices = Option.none → processValue d v false = .ok v) ∧
      (d.nargs.isList = false → d.parser = Option.none → d.choices = Option.none →
        processValue d v false = .ok v) := by
  intro d v p
  exact ⟨processValue_listArg_scalar d v p, processValue_plainList d v,
    processValue_plain d v⟩

/-- Witness for `list_arity_value_assignment`: with a parser configured,
assigning the scalar 5 to a `nargs='+'` argument raises `TypeError`; the
parserless clauses evaluate on `c3ListArg`'s base. -/
theorem list_arity_value_assignment_witness :
    processValue { name := "list_arg", nargs := .plus, parser := some Except.ok }
      (.int 5) false = .error .typeError ∧
    processValue c3ListArg.base (.int 5) false = .ok (.int 5) :=
  ⟨(list_arity_value_assignment
      { name := "list_arg", nargs := .plus, parser := some Except.ok }
      (.int 5) Except.ok).1 rfl rfl rfl,
   (list_arity_value_assignment c3ListArg.base (.int 5) Except.ok).2.1 rfl rfl rfl rfl⟩

/-- Any sequence of `ArgList` mode switches leaves the stored items
untouched: the mode setter writes only `_mode` (args.py:403-408). -/
theorem argList_foldl_setMode_items :
    ∀ (ms : List ArgMode) (al : ArgList), (ms.foldl ArgList.setMode al).items = al.items := by
  intro ms
  induction ms with
  | nil => intro al; rfl
  | cons m rest ih => intro al; exact ih (al.setMode m)

/-- Any sequence of `KwargDict` mode switches leaves the stored items
untouched: the mode setter writes only `_mode` (args.py:594-599). -/
theorem kwargDict_foldl_setMode_items :
    ∀ (ms : List ArgMode) (kd : KwargDict), (ms.foldl KwargDict.setMode kd).items = kd.items := by
  intro ms
  induction ms with
  | nil => intro kd; rfl
  | cons m rest ih => intro kd; exact ih (kd.setMode m)

/-- After replacing a present key's binding, lookup finds the new value. -/
theorem assocFind_assocSet (l : List (String × Kwarg)) (key : String) (nv : Kwarg) :
    ∀ k₀, assocFind l key = some k₀ → assocFind (assocSet l key nv) key = some nv := by
  induction l with
  | nil => intro k₀ h; cases h
  | cons hd tl ih =>
    intro k₀ h
    obtain ⟨k, v⟩ := hd
    by_cases hk : k = key
    · simp [assocFind, assocSet, hk]
    · simp only [assocFind, assocSet, if_neg hk] at h ⊢
      exact ih k₀ h

/-- Setting a double mode switch right equals just fixing the mode. -/
theorem setMode_roundtrip_argList (al : ArgList) (h : al.mode = .USE) :
    (al.setMode .DESC).setMode .USE = al := by
  cases al with
  | mk m it => cases h; rfl

/-- Same for `KwargDict`. -/
theorem setMode_roundtrip_kwargDict (kd : KwargDict) (h : kd.mode = .USE) :
    (kd.setMode .DESC).setMode .USE = kd := by
  cases kd with
  | mk m it => cases h; rfl

/-- Anatomy of a successful USE-mode `ArgList.__setitem__` with a raw value:
the list was in USE mode, position `i` held some `Arg`, its `value` setter
succeeded, and the result replaces just that position. -/
theorem argList_setValue_ok (al : ArgList) (i : Nat) (v : PyVal) (al₂ : ArgList)
    (h : al.setValue i v = .ok al₂) :
    al.mode = ArgMode.USE ∧
    ∃ a₁, al.items.get? i = some a₁ ∧ (a₁.trySet v).2 = Option.none ∧
      al₂ = { al with items := al.items.set i (a₁.trySet v).1 } := by
  unfold ArgList.setValue at h
  split at h
  · cases h
  · split at h
    · cases h
    · split at h
      · cases h
      · rename_i x1 hm x2 a₁ hg x3 hts
        exact ⟨hm, a₁, hg, hts, (Except.ok.inj h).symm⟩

/-- Anatomy of a successful USE-mode `KwargDict.__setitem__` with a raw
value when the key is already present: the dict was in USE mode, the
`Kwarg`'s `value` setter succeeded, and the result replaces just that
binding. -/
theorem kwargDict_setValue_ok_present (kd : KwargDict) (key : String) (v : PyVal)
    (kd₂ : KwargDict) (kw : Kwarg) (h : kd.setValue key v = .ok kd₂)
    (hfind : assocFind kd.items key = some kw) :
    kd.mode = ArgMode.USE ∧ (kw.trySet v).2 = Option.none ∧
    kd₂ = { kd with items := assocSet kd.items key (kw.trySet v).1 } := by
  unfold KwargDict.setValue at h
  split at h
  · cases h
  · simp only [hfind] at h
    split at h
    · cases h
    · rename_i x1 hm x2 hts
      exact ⟨hm, hts, (Except.ok.inj h).symm⟩

/-- C6. For every `ArgList` and `KwargDict`: reading in DESC mode yields the
descriptor objects, reading in USE mode yields their current values, any
sequence of mode switches leaves every stored descriptor and its value
unchanged, and a value set in USE mode survives switching to DESC and back
to USE — the value then read equals the value set (stated for a plain
descriptor, whose parse is the identity). -/
theorem container_mode_roundtrip :
    ∀ (al : ArgList) (kd : KwargDict) (ms : List ArgMode) (i : Nat) (key : String)
      (a : Arg) (kw : Kwarg) (v : PyVal) (al₂ : ArgList) (kd₂ : KwargDict),
      ((ms.foldl ArgList.setMode al).items = al.items) ∧
      ((ms.foldl KwargDict.setMode kd).items = kd.items) ∧
      (al.mode = .DESC → al.items.get? i = some a → al.getItem i = .ok (.descView a)) ∧
      (al.mode = .USE → al.items.get? i = some a → a.value? = some v →
        al.getItem i = .ok (.useView v)) ∧
      (al.setValue i v = .ok al₂ →
        ((al₂.setMode .DESC).setMode .USE).getItem i = al₂.getItem i) ∧
      (al.setValue i v = .ok al₂ → al.items.get? i = some a →
        a.base.parser = Option.none → a.base.choices = Option.none →
        a.base.nargs.isList = false →
        ((al₂.setMode .DESC).setMode .USE).getItem i = .ok (.useView v)) ∧
      (kd.mode = .DESC → assocFind kd.items key = some kw →
        kd.getItem key = .ok (.descK kw)) ∧
      (kd.mode = .USE → assocFind kd.items key = some kw →
        kd.getItem key = .ok (.useK kw.value)) ∧
      (kd.setValue key v = .ok kd₂ → v ≠ .none → assocFind kd.items key = some kw →
        kw.base.parser = Option.none → kw.base.choices = Option.none →
        kw.base.nargs.isList = false →
        ((kd₂.setMode .DESC).setMode .USE).getItem key = .ok (.useK v)) := by
  intro al kd ms i key a kw v al₂ kd₂
  refine ⟨argList_foldl_setMode_items ms al, kwargDict_foldl_setMode_items ms kd,
    ?_, ?_, ?_, ?_, ?_, ?_, ?_⟩
  · intro hm hg
    rw [List.get?_eq_getElem?] at hg
    simp [ArgList.getItem, hg, hm]
  · intro hm hg hv
    rw [List.get?_eq_getElem?] at hg
    simp [ArgList.getItem, hg, hm, hv]
  · intro h
    obtain ⟨hmode, a₁, hg, hts, hal⟩ := argList_setValue_ok al i v al₂ h
    have hm₂ : al₂.mode = ArgMode.USE := by rw [hal]; exact hmode
    rw [setMode_roundtrip_argList al₂ hm₂]
  · intro h hg hp hc hl
    obtain ⟨hmode, a₁, hg₁, hts, hal⟩ := argList_setValue_ok al i v al₂ h
    have ha₁ : a₁ = a := by rw [hg] at hg₁; exact (Option.some.inj hg₁).symm
    subst ha₁
    have hpv : processValue a₁.base v false = .ok v := processValue_plain a₁.base v hl hp hc
    have htry : a₁.trySet v = ({ a₁ with value? := some v }, Option.none) := by
      rw [Arg.trySet, hpv]
    have hm₂ : al₂.mode = ArgMode.USE := by rw [hal]; exact hmode
    rw [setMode_roundtrip_argList al₂ hm₂, hal]
    have hlt : i < al.items.length := by
      rw [List.get?_eq_getElem?] at hg
      exact (List.getElem?_eq_some_iff.mp hg).1
    have hgset : (al.items.set i { a₁ with value? := some v })[i]?
        = some { a₁ with value? := some v } := List.getElem?_set_self hlt
    simp [ArgList.getItem, htry, hgset, hmode]
  · intro hm hfind
    simp [KwargDict.getItem, hfind, hm]
  · intro hm hfind
    simp [KwargDict.getItem, hfind, hm]
  · intro h hv hfind hp hc hl
    obtain ⟨hmode, hts, hkd⟩ := kwargDict_setValue_ok_present kd key v kd₂ kw h hfind
    have hpv : processValue kw.base v false = .ok v := processValue_plain kw.base v hl hp hc
    have htry : kw.trySet v = ({ kw with value? := some v }, Option.none) := by
      rw [Kwarg.trySet, if_neg hv, hpv]
    have hm₂ : kd₂.mode = ArgMode.USE := by rw [hkd]; exact hmode
    rw [setMode_roundtrip_kwargDict kd₂ hm₂, hkd]
    have hfind₂ : assocFind (assocSet kd.items key { kw with value? := some v }) key
        = some { kw with value? := some v } :=
      assocFind_assocSet kd.items key { kw with value? := some v } kw hfind
    simp [KwargDict.getItem, htry, hfind₂, hmode, Kwarg.value]

/-- The two-item plain arg list used by the C6 witness. -/
def c6ArgList : ArgList :=
  { mode := .USE, items := [{ base := { name := "pv_penetration" } }] }

/-- The one-key plain kwarg dict used by the C6 witness. -/
def c6KwargDict : KwargDict :=
  { mode := .USE, items := [("max_pv_systems", { base := { name := "max_pv_systems" } })] }

/-- Witness for `container_mode_roundtrip`: set 3 in USE mode, switch to
DESC and back to USE, and read 3 back — for both container kinds. -/
theorem container_mode_roundtrip_witness :
    ((((c6ArgList.setValue 0 (.int 3)).toOption.getD c6ArgList).setMode
        .DESC).setMode .USE).getItem 0 = .ok (.useView (.int 3)) ∧
    ((((c6KwargDict.setValue "max_pv_systems" (.int 3)).toOption.getD
        c6KwargDict).setMode .DESC).setMode .USE).getItem "max_pv_systems"
      = .ok (.useK (.int 3)) :=
  ⟨(container_mode_roundtrip c6ArgList c6KwargDict [] 0 "max_pv_systems"
      { base := { name := "pv_penetration" } } { base := { name := "max_pv_systems" } }
      (.int 3) ((c6ArgList.setValue 0 (.int 3)).toOption.getD c6ArgList)
      ((c6KwargDict.setValue "max_pv_systems" (.int 3)).toOption.getD
        c6KwargDict)).2.2.2.2.2.1 rfl rfl rfl rfl rfl,
   (container_mode_roundtrip c6ArgList c6KwargDict [] 0 "max_pv_systems"
      { base := { name := "pv_penetration" } } { base := { name := "max_pv_systems" } }
      (.int 3) ((c6ArgList.setValue 0 (.int 3)).toOption.getD c6ArgList)
      ((c6KwargDict.setValue "max_pv_systems" (.int 3)).toOption.getD
        c6KwargDict)).2.2.2.2.2.2.2.2 rfl (by decide) rfl rfl rfl rfl⟩

/-- A candidate returned by the inner `n`-loop of `get_short_name` is never
one of the already-used short names (the `if candidate not in short_names`
guard at args.py:831). -/
theorem tryNs_found_not_mem :
    ∀ (ns : List Nat) (parts shortNames : List String) (M : Nat)
      (cands cands₂ : List String) (c : String),
      tryNs parts shortNames M ns cands = (some c, cands₂) → c ∉ shortNames := by
  intro ns
  induction ns with
  | nil => intro _ _ _ _ _ _ h; cases h
  | cons n rest ih =>
    intro parts shortNames M cands cands₂ c h
    simp only [tryNs] at h
    by_cases hc : candidateFor parts M n ∈ shortNames
    · rw [if_pos hc] at h
      exact ih parts shortNames M _ cands₂ c h
    · rw [if_neg hc] at h
      have h1 : some (candidateFor parts M n) = some c := congrArg Prod.fst h
      exact (Option.some.inj h1) ▸ hc

/-- A short name found by the outer loop of `get_short_name` is unused and
nonempty. -/
theorem shortNameLoop_found :
    ∀ (fuel : Nat) (parts shortNames : List String) (M k : Nat)
      (cands : List String) (c : String),
      shortNameLoop parts shortNames fuel M k cands = .found c →
      c ∉ shortNames ∧ c ≠ "" := by
  intro fuel
  induction fuel with
  | zero => intro _ _ _ _ _ _ h; cases h
  | succ f ih =>
    intro parts shortNames M k cands c h
    simp only [shortNameLoop] at h
    split at h
    · cases h
    · split at h
      · rename_i c₂ cands₂ ht
        split at h
        · exact ih parts shortNames (M + 1) cands.length cands₂ c h
        · rename_i hc
          cases h
          exact ⟨tryNs_found_not_mem _ parts shortNames M cands cands₂ _ ht, hc⟩
      · rename_i cands₂ ht
        exact ih parts shortNames (M + 1) cands.length cands₂ c h

/-- A short name returned by `get_short_name` is not in the used-set it was
given. -/
theorem get_short_name_found (fuel : Nat) (name : String) (used : List String) (c : String)
    (h : get_short_name fuel name used = .found c) : c ∉ used :=
  (shortNameLoop_found fuel (multisplit name) used 1 0 [] c h).1

/-- Sequentially derived short names are pairwise distinct and disjoint from
the initial used-set. -/
theorem getShortNamesSeq_unique :
    ∀ (names : List String) (fuel : Nat) (used out : List String),
      getShortNamesSeq fuel names used = some out →
      out.Nodup ∧ ∀ c ∈ out, c ∉ used := by
  intro names
  induction names with
  | nil =>
    intro fuel used out h
    simp only [getShortNamesSeq] at h
    cases h
    exact ⟨List.nodup_nil, by simp⟩
  | cons n rest ih =>
    intro fuel used out h
    simp only [getShortNamesSeq] at h
    cases hg : get_short_name fuel n used with
    | found c =>
      simp only [hg] at h
      cases hr : getShortNamesSeq fuel rest (used ++ [c]) with
      | none => rw [hr] at h; cases h
      | some out₂ =>
        rw [hr] at h
        obtain ⟨hnd, hmem⟩ := ih fuel (used ++ [c]) out₂ hr
        have hc : c ∉ used := get_short_name_found fuel n used c hg
        have hout : out = c :: out₂ := (Option.some.inj h).symm
        subst hout
        constructor
        · refine List.nodup_cons.mpr ⟨?_, hnd⟩
          intro hcmem
          exact (hmem c hcmem) (by simp)
        · intro x hx
          rcases List.mem_cons.mp hx with h1 | h2
          · subst h1; exact hc
          · intro hxu
            exact (hmem x h2) (by simp [hxu])
    | collisionError => rw [hg] at h; cases h
    | fuelOut => rw [hg] at h; cases h

/-- C8. `get_short_name` is deterministic (it is embedded as a pure function
of the full name and the used-set, mirroring a source with no
nondeterministic dependence) and collision-free: every sequentially derived
short-name list is duplicate-free and disjoint from the initial used-set;
the names `dredge`, `rude-awakening`, `recharge_area` against the seed
`[r, d, h]` yield `dr`, `ra`, `rea` in that order; and a pathological
exhaustion of all candidates (deriving a short name for `a` when `a` is
already used) raises the deterministic `LayerStackRuntimeError` of
args.py:810. -/
theorem short_name_derivation :
    (∀ (fuel : Nat) (names used out : List String),
      getShortNamesSeq fuel names used = some out →
      out.Nodup ∧ ∀ c ∈ out, c ∉ used) ∧
    getShortNamesSeq 8 ["dredge", "rude-awakening", "recharge_area"] ["r", "d", "h"]
      = some ["dr", "ra", "rea"] ∧
    get_short_name 8 "a" ["a"] = .collisionError := by
  refine ⟨fun fuel names used out h => getShortNamesSeq_unique names fuel used out h,
    by decide, by decide⟩

/-- Witness for `short_name_derivation`: the derived names `dr`, `ra`, `rea`
are pairwise distinct and avoid the seed. -/
theorem short_name_derivation_witness :
    (["dr", "ra", "rea"] : List String).Nodup ∧ ("dr" : String) ∉ (["r", "d", "h"] : List String) :=
  have h := short_name_derivation.1 8 ["dredge", "rude-awakening", "recharge_area"]
    ["r", "d", "h"] ["dr", "ra", "rea"] (by decide)
  ⟨h.1, h.2 "dr" (by decide)⟩

/-! ## Lemmas for the Stack.load reconciliation (claim C4) -/

/-- The entry `lastIdxOf` points at really holds the looked-up name. -/
theorem lastIdxOf_get? : ∀ (l : List String) (x : String) (j : Nat),
    lastIdxOf l x = some j → l.get? j = some x := by
  intro l
  induction l with
  | nil => intro x j h; cases h
  | cons y rest ih =>
    intro x j h
    simp only [lastIdxOf] at h
    cases hr : lastIdxOf rest x with
    | some j₂ =>
      rw [hr] at h
      cases h
      exact ih x j₂ hr
    | none =>
      rw [hr] at h
      by_cases hy : y = x
      · rw [if_pos hy] at h
        cases h
        simpa using hy
      · rw [if_neg hy] at h
        cases h

/-- `lastIdxOf` finds nothing exactly for absent names. -/
theorem lastIdxOf_eq_none_iff : ∀ (l : List String) (x : String),
    lastIdxOf l x = Option.none ↔ x ∉ l := by
  intro l
  induction l with
  | nil => intro x; simp [lastIdxOf]
  | cons y rest ih =>
    intro x
    simp only [lastIdxOf]
    cases hr : lastIdxOf rest x with
    | some j =>
      have hx : x ∈ rest := by
        by_contra hnx
        rw [(ih x).mpr hnx] at hr
        cases hr
      simp [hx]
    | none =>
      have hnx : x ∉ rest := (ih x).mp hr
      by_cases hy : y = x
      · subst hy
        simp
      · simp [hy, hnx, List.mem_cons]
        intro he
        exact hy he.symm

/-- On a duplicate-free list, `lastIdxOf` inverts `get?`. -/
theorem lastIdxOf_of_get? : ∀ (l : List String), l.Nodup → ∀ (i : Nat) (x : String),
    l.get? i = some x → lastIdxOf l x = some i := by
  intro l
  induction l with
  | nil => intro _ i x h; cases h
  | cons y rest ih =>
    intro hnd i x h
    obtain ⟨hy, hrest⟩ := List.nodup_cons.mp hnd
    cases i with
    | zero =>
      have hx : y = x := Option.some.inj h
      subst hx
      have hnone : lastIdxOf rest y = Option.none := (lastIdxOf_eq_none_iff rest y).mpr hy
      simp [lastIdxOf, hnone]
    | succ i₂ =>
      have h₂ : rest.get? i₂ = some x := h
      have := ih hrest i₂ x h₂
      simp [lastIdxOf, this]

/-- Characterization of the first reconciliation loop on duplicate-free name
lists: every serialized name whose match exists in `live` is matched to the
(unique) live index of that name, regardless of position, and exactly those
indices get claimed; serialized names absent from `live` stay unassigned. -/
theorem pass1_eq (live : List String) (hl : live.Nodup) :
    ∀ (s : List String), s.Nodup →
    ∀ (i : Nat) (assigned : List Nat),
      (∀ y ∈ s, ∀ j, lastIdxOf live y = some j → j ∉ assigned) →
      pass1 live s i assigned
        = (s.map (lastIdxOf live), assigned ++ s.filterMap (lastIdxOf live)) := by
  intro s
  induction s with
  | nil => intro _ i assigned _; simp [pass1]
  | cons x rest ih =>
    intro hnd i assigned hinv
    obtain ⟨hx, hrest⟩ := List.nodup_cons.mp hnd
    cases hlx : lastIdxOf live x with
    | some j =>
      have hj : j ∉ assigned := hinv x (List.mem_cons_self x rest) j hlx
      have hstep : pass1Step live x i assigned = (some j, assigned ++ [j]) := by
        unfold pass1Step
        by_cases hc : live.get? i = some x ∧ i ∉ assigned
        · rw [if_pos hc]
          have hi : lastIdxOf live x = some i := lastIdxOf_of_get? live hl i x hc.1
          rw [hlx] at hi
          cases hi
          rfl
        · rw [if_neg hc, hlx]
          show (if j ∉ assigned then ((some j : Option Nat), assigned ++ [j])
              else (Option.none, assigned)) = (some j, assigned ++ [j])
          rw [if_pos hj]
      have hstep1 : (pass1Step live x i assigned).1 = some j := by rw [hstep]
      have hstep2 : (pass1Step live x i assigned).2 = assigned ++ [j] := by rw [hstep]
      have hinv₂ : ∀ y ∈ rest, ∀ j₂, lastIdxOf live y = some j₂ → j₂ ∉ assigned ++ [j] := by
        intro y hy j₂ hj₂
        have h₁ : j₂ ∉ assigned := hinv y (List.mem_cons_of_mem x hy) j₂ hj₂
        have h₂ : j₂ ≠ j := by
          intro he
          subst he
          have hgy : live.get? j₂ = some y := lastIdxOf_get? live y j₂ hj₂
          have hgx : live.get? j₂ = some x := lastIdxOf_get? live x j₂ hlx
          rw [hgy] at hgx
          exact hx ((Option.some.inj hgx) ▸ hy)
        simp [List.mem_append, h₁, h₂]
      simp only [pass1, hstep1, hstep2, ih hrest (i + 1) (assigned ++ [j]) hinv₂]
      simp [hlx, List.filterMap_cons]
    | none =>
      have hnotmem : x ∉ live := (lastIdxOf_eq_none_iff live x).mp hlx
      have hstep : pass1Step live x i assigned = (Option.none, assigned) := by
        unfold pass1Step
        have hc : ¬(live.get? i = some x ∧ i ∉ assigned) := by
          rintro ⟨hgi, _⟩
          exact hnotmem (List.get?_mem hgi)
        rw [if_neg hc, hlx]
      have hstep1 : (pass1Step live x i assigned).1 = Option.none := by rw [hstep]
      have hstep2 : (pass1Step live x i assigned).2 = assigned := by rw [hstep]
      have hinv₂ : ∀ y ∈ rest, ∀ j₂, lastIdxOf live y = some j₂ → j₂ ∉ assigned :=
        fun y hy => hinv y (List.mem_cons_of_mem x hy)
      simp only [pass1, hstep1, hstep2, ih hrest (i + 1) assigned hinv₂]
      simp [hlx, List.filterMap_cons]

/-- The fallback loop only grants indices it was offered. -/
theorem pass2_subset : ∀ (n : Nat) (ds assigned : List Nat) (j : Nat),
    j ∈ pass2 n ds assigned → j ∈ ds := by
  intro n ds
  induction ds with
  | nil => intro assigned j h; cases h
  | cons d rest ih =>
    intro assigned j h
    simp only [pass2] at h
    by_cases hc : d < n ∧ d ∉ assigned
    · rw [if_pos hc] at h
      rcases List.mem_cons.mp h with h1 | h2
      · exact h1 ▸ List.mem_cons_self d rest
      · exact List.mem_cons_of_mem d (ih (assigned ++ [d]) j h2)
    · rw [if_neg hc] at h
      exact List.mem_cons_of_mem d (ih assigned j h)

/-- On a duplicate-free offer list, the fallback loop grants exactly the
in-range indices not already claimed. -/
theorem pass2_mem (n : Nat) : ∀ (ds : List Nat), ds.Nodup →
    ∀ (assigned : List Nat) (i : Nat), i ∈ ds →
      (i ∈ pass2 n ds assigned ↔ i < n ∧ i ∉ assigned) := by
  intro ds
  induction ds with
  | nil => intro _ _ i h; cases h
  | cons d rest ih =>
    intro hnd assigned i hmem
    obtain ⟨hd, hrest⟩ := List.nodup_cons.mp hnd
    simp only [pass2]
    rcases List.mem_cons.mp hmem with h1 | h2
    · subst h1
      by_cases hc : i < n ∧ i ∉ assigned
      · rw [if_pos hc]
        simp [hc]
      · rw [if_neg hc]
        constructor
        · intro hp
          exact absurd (pass2_subset n rest assigned i hp) hd
        · intro hh
          exact absurd hh hc
    · have hne : i ≠ d := fun he => hd (he ▸ h2)
      by_cases hc : d < n ∧ d ∉ assigned
      · rw [if_pos hc, List.mem_cons]
        constructor
        · rintro (h1 | hp)
          · exact absurd h1 hne
          · have hih := (ih hrest (assigned ++ [d]) i h2).mp hp
            exact ⟨hih.1, fun ha => hih.2 (by simp [ha])⟩
        · rintro ⟨hin, hna⟩
          right
          refine (ih hrest (assigned ++ [d]) i h2).mpr ⟨hin, ?_⟩
          simp [List.mem_append, hna, hne]
      · rw [if_neg hc]
        exact ih hrest assigned i h2

/-- Deferred serialized indices all lie at or above the start index. -/
theorem deferredIdxs_ge : ∀ (es : List (Option Nat)) (k i : Nat),
    i ∈ deferredIdxs es k → k ≤ i := by
  intro es
  induction es with
  | nil => intro k i h; cases h
  | cons e rest ih =>
    intro k i h
    cases e with
    | none =>
      rcases List.mem_cons.mp h with h1 | h2
      · exact Nat.le_of_eq h1.symm
      · exact Nat.le_of_succ_le (ih (k + 1) i h2)
    | some j =>
      exact Nat.le_of_succ_le (ih (k + 1) i h)

/-- The deferred-index list has no duplicates. -/
theorem deferredIdxs_nodup : ∀ (es : List (Option Nat)) (k : Nat),
    (deferredIdxs es k).Nodup := by
  intro es
  induction es with
  | nil => intro k; exact List.nodup_nil
  | cons e rest ih =>
    intro k
    cases e with
    | some j => exact ih (k + 1)
    | none =>
      refine List.nodup_cons.mpr ⟨?_, ih (k + 1)⟩
      intro hmem
      have := deferredIdxs_ge rest (k + 1) k hmem
      omega

/-- Membership in the deferred-index list mirrors the unassigned entries of
the first-pass result. -/
theorem deferredIdxs_mem : ∀ (es : List (Option Nat)) (k m : Nat),
    (k + m) ∈ deferredIdxs es k ↔ es.get? m = some Option.none := by
  intro es
  induction es with
  | nil => intro k m; simp [deferredIdxs]
  | cons e rest ih =>
    intro k m
    cases e with
    | some j =>
      cases m with
      | zero =>
        simp only [Nat.add_zero]
        constructor
        · intro h
          have := deferredIdxs_ge rest (k + 1) k h
          omega
        · intro h
          simp at h
      | succ m₂ =>
        rw [show k + (m₂ + 1) = (k + 1) + m₂ from by omega]
        exact ih (k + 1) m₂
    | none =>
      cases m with
      | zero =>
        simp only [Nat.add_zero]
        constructor
        · intro _; rfl
        · intro _; exact List.mem_cons_self k _
      | succ m₂ =>
        rw [show k + (m₂ + 1) = (k + 1) + m₂ from by omega]
        constructor
        · intro h
          rcases List.mem_cons.mp h with h1 | h2
          · omega
          · exact (ih (k + 1) m₂).mp h2
        · intro h
          exact List.mem_cons_of_mem k ((ih (k + 1) m₂).mpr h)

/-- Reading the merged map entrywise. -/
theorem finalize_get? : ∀ (es : List (Option Nat)) (k : Nat) (granted : List Nat) (m : Nat),
    (finalize es k granted).get? m
      = (es.get? m).map (fun e =>
          match e with
          | some j => some j
          | Option.none => if (k + m) ∈ granted then some (k + m) else Option.none) := by
  intro es
  induction es with
  | nil => intro k granted m; simp [finalize]
  | cons e rest ih =>
    intro k granted m
    cases e with
    | some j =>
      cases m with
      | zero => simp [finalize]
      | succ m₂ =>
        simp only [finalize]
        rw [show k + (m₂ + 1) = (k + 1) + m₂ from by omega]
        exact ih (k + 1) granted m₂
    | none =>
      cases m with
      | zero => simp [finalize]
      | succ m₂ =>
        simp only [finalize]
        rw [show k + (m₂ + 1) = (k + 1) + m₂ from by omega]
        exact ih (k + 1) granted m₂

/-- Performed assignments all carry serialized indices at or above the
walk's start. -/
theorem performedAssignments_fst_ge :
    ∀ (m : List (Option Nat)) (k : Nat) (p : Nat × Nat),
      p ∈ performedAssignments m k → k ≤ p.1 := by
  intro m
  induction m with
  | nil => intro k p h; cases h
  | cons e rest ih =>
    intro k p h
    cases e with
    | some j =>
      rcases List.mem_cons.mp h with h1 | h2
      · rw [h1]
      · exact Nat.le_of_succ_le (ih (k + 1) p h2)
    | none =>
      exact Nat.le_of_succ_le (ih (k + 1) p h)

/-- A performed assignment `(k + i, j)` reflects a `some j` entry at offset
`i` of the map. -/
theorem performedAssignments_mem :
    ∀ (m : List (Option Nat)) (k i j : Nat),
      (k + i, j) ∈ performedAssignments m k → m.get? i = some (some j) := by
  intro m
  induction m with
  | nil => intro k i j h; cases h
  | cons e rest ih =>
    intro k i j h
    cases e with
    | some j₂ =>
      rcases List.mem_cons.mp h with h1 | h2
      · have hi : k + i = k := congrArg Prod.fst h1
        have hj : j = j₂ := congrArg Prod.snd h1
        have hz : i = 0 := by omega
        subst hz
        subst hj
        rfl
      · have hge := performedAssignments_fst_ge rest (k + 1) (k + i, j) h2
        simp only at hge
        cases i with
        | zero => omega
        | succ i₂ =>
          have h₃ : ((k + 1) + i₂, j) ∈ performedAssignments rest (k + 1) := by
            rw [show (k + 1) + i₂ = k + (i₂ + 1) from by omega]
            exact h2
          exact ih (k + 1) i₂ j h₃
    | none =>
      have hge := performedAssignments_fst_ge rest (k + 1) (k + i, j) h
      simp only at hge
      cases i with
      | zero => omega
      | succ i₂ =>
        have h₃ : ((k + 1) + i₂, j) ∈ performedAssignments rest (k + 1) := by
          rw [show (k + 1) + i₂ = k + (i₂ + 1) from by omega]
          exact h
        exact ih (k + 1) i₂ j h₃

/-- C4. During `Stack.load` argument reconciliation over duplicate-free name
lists: every serialized positional argument whose name occurs among the live
descriptors — in particular one that does not match the live descriptor at
its own index — is assigned to the live descriptor of that name, not to its
own index; a serialized argument whose name is absent falls back to
same-index positional alignment exactly when that index is in range and the
live descriptor there is claimed by no serialized name; otherwise it is
dropped, and a dropped argument's value is never applied by the assignment
loop. -/
theorem load_reconciliation (live s : List String) (hl : live.Nodup) (hs : s.Nodup) :
    (∀ (i : Nat) (x : String), s.get? i = some x → x ∈ live →
      ∃ j, (reconcileArgs live s).get? i = some (some j) ∧ live.get? j = some x) ∧
    (∀ (i : Nat) (x z : String), s.get? i = some x → x ∉ live →
      live.get? i = some z → z ∉ s →
      (reconcileArgs live s).get? i = some (some i)) ∧
    (∀ (i : Nat) (x : String), s.get? i = some x → x ∉ live →
      (live.length ≤ i ∨ (∃ z, live.get? i = some z ∧ z ∈ s)) →
      (reconcileArgs live s).get? i = some Option.none) ∧
    (∀ (i j : Nat), (reconcileArgs live s).get? i = some Option.none →
      (i, j) ∉ performedAssignments (reconcileArgs live s) 0) := by
  have hp1 : pass1 live s 0 [] = (s.map (lastIdxOf live), s.filterMap (lastIdxOf live)) := by
    rw [pass1_eq live hl s hs 0 [] (by intro y hy j hj; simp)]
    simp
  have hrec : reconcileArgs live s
      = finalize (s.map (lastIdxOf live)) 0
          (pass2 live.length (deferredIdxs (s.map (lastIdxOf live)) 0)
            (s.filterMap (lastIdxOf live))) := by
    unfold reconcileArgs
    rw [hp1]
  have hassigned : ∀ i : Nat, i ∈ s.filterMap (lastIdxOf live) ↔
      ∃ z, live.get? i = some z ∧ z ∈ s := by
    intro i
    rw [List.mem_filterMap]
    constructor
    · rintro ⟨y, hy, hfy⟩
      exact ⟨y, lastIdxOf_get? live y i hfy, hy⟩
    · rintro ⟨z, hz, hzs⟩
      exact ⟨z, hzs, lastIdxOf_of_get? live hl i z hz⟩
  have hmapnone : ∀ (i : Nat) (x : String), s.get? i = some x → x ∉ live →
      (s.map (lastIdxOf live)).get? i = some Option.none := by
    intro i x hgi hxl
    have hfx : lastIdxOf live x = Option.none := (lastIdxOf_eq_none_iff live x).mpr hxl
    rw [List.get?_eq_getElem?] at hgi ⊢
    rw [List.getElem?_map, hgi]
    simp [hfx]
  have hgranted : ∀ (i : Nat) (x : String), s.get? i = some x → x ∉ live →
      (i ∈ pass2 live.length (deferredIdxs (s.map (lastIdxOf live)) 0)
          (s.filterMap (lastIdxOf live))
        ↔ (i < live.length ∧ ¬∃ z, live.get? i = some z ∧ z ∈ s)) := by
    intro i x hgi hxl
    have hdef : i ∈ deferredIdxs (s.map (lastIdxOf live)) 0 := by
      have h0 : (0 + i) ∈ deferredIdxs (s.map (lastIdxOf live)) 0 :=
        (deferredIdxs_mem _ 0 i).mpr (hmapnone i x hgi hxl)
      simpa using h0
    rw [pass2_mem live.length _ (deferredIdxs_nodup _ 0) _ i hdef]
    exact and_congr_right fun _ => not_congr (hassigned i)
  refine ⟨?_, ?_, ?_, ?_⟩
  · intro i x hgi hxl
    obtain ⟨j, hfj⟩ : ∃ j, lastIdxOf live x = some j := by
      cases hfx : lastIdxOf live x with
      | none => exact absurd ((lastIdxOf_eq_none_iff live x).mp hfx) (by simpa using hxl)
      | some j => exact ⟨j, rfl⟩
    refine ⟨j, ?_, lastIdxOf_get? live x j hfj⟩
    rw [hrec, finalize_get? _ 0 _ i]
    have hmi : (s.map (lastIdxOf live)).get? i = some (some j) := by
      rw [List.get?_eq_getElem?] at hgi ⊢
      rw [List.getElem?_map, hgi]
      simp [hfj]
    rw [hmi]
    rfl
  · intro i x z hgi hxl hzi hzs
    rw [hrec, finalize_get? _ 0 _ i, hmapnone i x hgi hxl]
    have hlt : i < live.length := by
      rw [List.get?_eq_getElem?] at hzi
      exact (List.getElem?_eq_some_iff.mp hzi).1
    have hne : ¬∃ z₂, live.get? i = some z₂ ∧ z₂ ∈ s := by
      rintro ⟨z₂, hz₂, hz₂s⟩
      rw [hzi] at hz₂
      exact hzs ((Option.some.inj hz₂) ▸ hz₂s)
    have hg : i ∈ pass2 live.length (deferredIdxs (s.map (lastIdxOf live)) 0)
        (s.filterMap (lastIdxOf live)) := (hgranted i x hgi hxl).mpr ⟨hlt, hne⟩
    simp [hg]
  · intro i x hgi hxl hdrop
    rw [hrec, finalize_get? _ 0 _ i, hmapnone i x hgi hxl]
    have hng : i ∉ pass2 live.length (deferredIdxs (s.map (lastIdxOf live)) 0)
        (s.filterMap (lastIdxOf live)) := by
      rw [hgranted i x hgi hxl]
      rintro ⟨hlt, hne⟩
      rcases hdrop with h1 | h2
      · omega
      · exact hne h2
    simp [hng]
  · intro i j hnone hmem
    have hidx := performedAssignments_mem (reconcileArgs live s) 0 i j (by simpa using hmem)
    rw [hnone] at hidx
    simp at hidx

/-- Witness for `load_reconciliation`: layer serialized with positional
arguments `[X, Y]`, live contract now declaring `[Y, X]` — each serialized
value goes to the live descriptor of the same name. -/
theorem load_reconciliation_witness :
    (∃ j, (reconcileArgs ["Y", "X"] ["X", "Y"]).get? 0 = some (some j) ∧
      (["Y", "X"] : List String).get? j = some "X") ∧
    (∃ j, (reconcileArgs ["Y", "X"] ["X", "Y"]).get? 1 = some (some j) ∧
      (["Y", "X"] : List String).get? j = some "Y") :=
  ⟨(load_reconciliation ["Y", "X"] ["X", "Y"] (by decide) (by decide)).1 0 "X"
      (by decide) (by decide),
   (load_reconciliation ["Y", "X"] ["X", "Y"] (by decide) (by decide)).1 1 "Y"
      (by decide) (by decide)⟩

end LayerStack
